import Mathlib

/-!
Shallow embedding of the embedding-and-mapping pipeline of `perspective_kb`
(`src/perspective_kb/data_helper.py` and `src/perspective_kb/vector_db.py`).

Vectors are modelled as lists of rationals (the source uses Python floats,
but no claim depends on float rounding).  External collaborators (the Ollama
embedding service, the Milvus vector store, the file system and the wall
clock) are passed in as explicit parameters, mirroring how the source code
treats them as opaque capabilities.
-/

/-- An embedding vector (`List[float]` in the source). -/
abbrev Vec := List ℚ

/-! ## Text cleaning: `DataHelper.clean_text` (data_helper.py lines 185-218) -/

/-- Whitespace as matched by Python's `str.strip` and the regex class `\s`
(ASCII part; the rare non-ASCII Unicode whitespace code points do not occur
in any input considered here). -/
def isSpaceChar (c : Char) : Bool :=
  c == ' ' || c == '\t' || c == '\n' || c == '\r' || c == '\x0b' || c == '\x0c'

/-- The emoji ranges of the allow-list regex on line 206:
`\U0001F600-\U0001F64F`, `\U0001F300-\U0001F5FF`, `\U0001F680-\U0001F6FF`,
`\U0001F1E0-\U0001F1FF`. -/
def isEmoji (c : Char) : Bool :=
  (0x1F600 ≤ c.toNat && c.toNat ≤ 0x1F64F) ||
  (0x1F300 ≤ c.toNat && c.toNat ≤ 0x1F5FF) ||
  (0x1F680 ≤ c.toNat && c.toNat ≤ 0x1F6FF) ||
  (0x1F1E0 ≤ c.toNat && c.toNat ≤ 0x1F1FF)

/-- The CJK range `一-鿿` of the allow-list regex. -/
def isCJK (c : Char) : Bool :=
  0x4e00 ≤ c.toNat && c.toNat ≤ 0x9fff

/-- Python's regex `\w` (word characters), restricted to the scripts the
repository's data uses: ASCII letters, digits, underscore, and CJK.  (Python's
`\w` additionally matches letters of other scripts; none of the claims
depends on those.) -/
def isWordChar (c : Char) : Bool :=
  c.isAlpha || c.isDigit || c == '_' || isCJK c

/-- The character class of the duplicate-punctuation regex on line 209:
`([,.!?；：])`. -/
def isPunctSet (c : Char) : Bool :=
  c == ',' || c == '.' || c == '!' || c == '?' || c == '；' || c == '：'

/-- The allow-list of the character-filter regex on line 206.  The source
writes the pattern with ASCII straight quotes inside a single-quoted raw
literal, so Python parses the line as TWO adjacent string literals that it
concatenates: a raw one ending at the first apostrophe (whose value ends
`…；：""`) and a regular one `（）【】\\s\U0001F600-…]`.  Consequently the
pattern the regex engine receives is
`[^\w一-鿿0-9\.,!?；：""（）【】\s <emoji ranges>]`: the ASCII double quote
is in the class, the apostrophe is not (both apostrophes serve as string
delimiters), and the source's `\\s` — living in the non-raw literal —
reaches the engine as the class escape `\s`, so whitespace IS allowed and
survives this filter. -/
def allowedChar (c : Char) : Bool :=
  isWordChar c || isCJK c || c.isDigit ||
  c == '.' || c == ',' || c == '!' || c == '?' || c == '；' || c == '：' ||
  c == '"' ||
  c == '（' || c == '）' || c == '【' || c == '】' ||
  isSpaceChar c || isEmoji c

/-- `str.strip()`: drop leading and trailing whitespace. -/
def stripL (l : List Char) : List Char :=
  ((l.dropWhile isSpaceChar).reverse.dropWhile isSpaceChar).reverse

/-- Python `text.strip()` on strings. -/
def pyStrip (s : String) : String :=
  ⟨stripL s.data⟩

/-- Helper for `re.sub(r'\s+', ' ', text)`: `inRun` records whether the
previous character was part of a whitespace run already replaced by the
single space. -/
def collapseWSAux (inRun : Bool) : List Char → List Char
  | [] => []
  | c :: rest =>
    if isSpaceChar c then
      (if inRun then [] else [' ']) ++ collapseWSAux true rest
    else c :: collapseWSAux false rest

/-- `re.sub(r'\s+', ' ', text)` (line 203): every maximal whitespace run
becomes a single space. -/
def collapseWS (l : List Char) : List Char :=
  collapseWSAux false l

/-- Helper for `re.sub(r'([,.!?；：])\1+', r'\1', text)` (line 209): `prev`
is the last character kept; a following equal character from the punctuation
set is dropped. -/
def squeezeAux (prev : Char) : List Char → List Char
  | [] => []
  | d :: rest =>
    if isPunctSet prev && prev == d then squeezeAux prev rest
    else d :: squeezeAux d rest

/-- `re.sub(r'([,.!?；：])\1+', r'\1', text)`: collapse each run of an
identical punctuation character from the set to a single occurrence. -/
def squeezePunct : List Char → List Char
  | [] => []
  | c :: rest => c :: squeezeAux c rest

/-- `DataHelper.clean_text` on character lists: the `if not text` guard,
then strip, whitespace collapsing, character filtering,
duplicate-punctuation collapsing, and a final strip.  (The source wraps the
body in `try/except`; none of the pure steps can raise.) -/
def cleanTextL (l : List Char) : List Char :=
  if l = [] then []
  else stripL (squeezePunct ((collapseWS (stripL l)).filter allowedChar))

/-- `DataHelper.clean_text` (data_helper.py lines 185-218). -/
def cleanText (s : String) : String :=
  ⟨cleanTextL s.data⟩

/-! ## Cleaning-pipeline lemmas and claim C7 (idempotence of `clean_text`) -/

theorem mem_stripL {c : Char} {l : List Char} (h : c ∈ stripL l) : c ∈ l := by
  unfold stripL at h
  rw [List.mem_reverse] at h
  have h1 := (List.dropWhile_sublist _).subset h
  rw [List.mem_reverse] at h1
  exact (List.dropWhile_sublist _).subset h1

theorem mem_squeezeAux {c : Char} :
    ∀ {l : List Char} {p : Char}, c ∈ squeezeAux p l → c ∈ l := by
  intro l
  induction l with
  | nil => intro p h; simp [squeezeAux] at h
  | cons d rest ih =>
    intro p h
    by_cases hpd : (isPunctSet p && p == d) = true
    · rw [squeezeAux, if_pos hpd] at h
      exact List.mem_cons_of_mem d (ih h)
    · rw [squeezeAux, if_neg hpd] at h
      rcases List.mem_cons.mp h with h1 | h1
      · exact h1 ▸ List.mem_cons_self d rest
      · exact List.mem_cons_of_mem d (ih h1)

theorem mem_squeezePunct {c : Char} {l : List Char} (h : c ∈ squeezePunct l) :
    c ∈ l := by
  cases l with
  | nil => simp [squeezePunct] at h
  | cons a t =>
    rcases List.mem_cons.mp h with h1 | h1
    · exact h1 ▸ List.mem_cons_self a t
    · exact List.mem_cons_of_mem a (mem_squeezeAux h1)

/-- A list is free of collapsible runs after `prev`: no punctuation character
from the set appears twice in a row. -/
def noRun : Char → List Char → Bool
  | _, [] => true
  | p, d :: rest => !(isPunctSet p && p == d) && noRun d rest

theorem noRun_squeezeAux : ∀ (l : List Char) (p : Char), noRun p (squeezeAux p l) = true := by
  intro l
  induction l with
  | nil => intro p; rfl
  | cons d rest ih =>
    intro p
    by_cases hpd : (isPunctSet p && p == d) = true
    · rw [squeezeAux, if_pos hpd]
      exact ih p
    · rw [squeezeAux, if_neg hpd, noRun]
      simp only [Bool.and_eq_true, Bool.not_eq_true']
      exact ⟨Bool.eq_false_iff.mpr hpd, ih d⟩

theorem squeezeAux_eq_self : ∀ (l : List Char) (p : Char), noRun p l = true → squeezeAux p l = l := by
  intro l
  induction l with
  | nil => intro p _; rfl
  | cons d rest ih =>
    intro p h
    rw [noRun] at h
    simp only [Bool.and_eq_true, Bool.not_eq_true'] at h
    rw [squeezeAux, if_neg (Bool.eq_false_iff.mp h.1), ih d h.2]

/-- No two adjacent whitespace characters (the shape `re.sub(r'\s+', ' ')`
leaves behind, which makes a further whitespace-collapse a no-op). -/
abbrev SpacePairFree (l : List Char) : Prop :=
  List.Chain' (fun a b => isSpaceChar a = false ∨ isSpaceChar b = false) l

/-- No collapsible punctuation run anywhere in the list. -/
abbrev PunctPairFree (l : List Char) : Prop :=
  List.Chain' (fun a b => ¬(isPunctSet a = true ∧ a = b)) l

theorem mem_collapseWSAux {c : Char} :
    ∀ {l : List Char} {b : Bool}, c ∈ collapseWSAux b l →
      c = ' ' ∨ (c ∈ l ∧ isSpaceChar c = false) := by
  intro l
  induction l with
  | nil => intro b h; simp [collapseWSAux] at h
  | cons d rest ih =>
    intro b h
    by_cases hd : isSpaceChar d = true
    · rw [collapseWSAux, if_pos hd] at h
      rcases List.mem_append.mp h with h1 | h1
      · left
        cases b with
        | true => simp at h1
        | false => simpa using h1
      · rcases ih h1 with h2 | h2
        · exact Or.inl h2
        · exact Or.inr ⟨List.mem_cons_of_mem d h2.1, h2.2⟩
    · rw [collapseWSAux, if_neg hd] at h
      rcases List.mem_cons.mp h with h1 | h1
      · exact Or.inr ⟨h1 ▸ List.mem_cons_self d rest, h1 ▸ Bool.eq_false_iff.mpr hd⟩
      · rcases ih h1 with h2 | h2
        · exact Or.inl h2
        · exact Or.inr ⟨List.mem_cons_of_mem d h2.1, h2.2⟩

theorem collapseWSAux_chain : ∀ (l : List Char),
    SpacePairFree (collapseWSAux false l) ∧ SpacePairFree (collapseWSAux true l) ∧
    (∀ c, (collapseWSAux true l).head? = some c → isSpaceChar c = false) := by
  intro l
  induction l with
  | nil => exact ⟨List.chain'_nil, List.chain'_nil, fun c h => by simp [collapseWSAux] at h⟩
  | cons d rest ih =>
    obtain ⟨ihF, ihT, ihH⟩ := ih
    by_cases hd : isSpaceChar d = true
    · refine ⟨?_, ?_, ?_⟩
      · rw [collapseWSAux, if_pos hd]
        exact List.chain'_cons'.mpr ⟨fun y hy => Or.inr (ihH y hy), ihT⟩
      · rw [collapseWSAux, if_pos hd]
        show SpacePairFree ([] ++ collapseWSAux true rest)
        simpa using ihT
      · intro c hc
        rw [collapseWSAux, if_pos hd] at hc
        exact ihH c (by simpa using hc)
    · have hd2 : isSpaceChar d = false := Bool.eq_false_iff.mpr hd
      have hcons : SpacePairFree (d :: collapseWSAux false rest) :=
        List.chain'_cons'.mpr ⟨fun y _ => Or.inl hd2, ihF⟩
      refine ⟨?_, ?_, ?_⟩
      · rw [collapseWSAux, if_neg hd]
        exact hcons
      · rw [collapseWSAux, if_neg hd]
        exact hcons
      · intro c hc
        rw [collapseWSAux, if_neg hd] at hc
        simp only [List.head?_cons, Option.some.injEq] at hc
        exact hc ▸ hd2

theorem squeezeAux_spacePairFree :
    ∀ (l : List Char) (p : Char), SpacePairFree (p :: l) →
      SpacePairFree (p :: squeezeAux p l) := by
  intro l
  induction l with
  | nil => intro p h; exact h
  | cons d rest ih =>
    intro p h
    obtain ⟨hpd, hrest⟩ := List.chain'_cons'.mp h
    by_cases hcond : (isPunctSet p && p == d) = true
    · rw [squeezeAux, if_pos hcond]
      have hd : p = d := by
        simp only [Bool.and_eq_true, beq_iff_eq] at hcond
        exact hcond.2
      apply ih p
      subst hd
      exact hrest
    · rw [squeezeAux, if_neg hcond]
      refine List.chain'_cons'.mpr ⟨?_, ih d hrest⟩
      intro y hy
      simp only [List.head?_cons, Option.mem_def, Option.some.injEq] at hy
      subst hy
      exact hpd d rfl

theorem squeezePunct_spacePairFree {l : List Char} (h : SpacePairFree l) :
    SpacePairFree (squeezePunct l) := by
  cases l with
  | nil => exact h
  | cons c t => exact squeezeAux_spacePairFree t c h

theorem punctPairFree_of_noRun :
    ∀ (l : List Char) (p : Char), noRun p l = true → PunctPairFree (p :: l) := by
  intro l
  induction l with
  | nil => intro p _; simp [PunctPairFree]
  | cons d rest ih =>
    intro p h
    rw [noRun] at h
    simp only [Bool.and_eq_true, Bool.not_eq_true', Bool.and_eq_false_iff] at h
    refine List.chain'_cons'.mpr ⟨?_, ih d h.2⟩
    intro y hy
    simp only [List.head?_cons, Option.mem_def, Option.some.injEq] at hy
    subst hy
    intro hcontra
    rcases h.1 with h1 | h1
    · rw [hcontra.1] at h1
      exact absurd h1 (by decide)
    · rw [beq_eq_false_iff_ne] at h1
      exact h1 hcontra.2

theorem noRun_of_punctPairFree :
    ∀ (l : List Char) (p : Char), PunctPairFree (p :: l) → noRun p l = true := by
  intro l
  induction l with
  | nil => intro p _; rfl
  | cons d rest ih =>
    intro p h
    replace h := List.chain'_cons'.mp h
    rw [noRun]
    simp only [Bool.and_eq_true, Bool.not_eq_true']
    constructor
    · have h1 := h.1 d (by simp)
      by_contra hb
      rw [Bool.not_eq_false, Bool.and_eq_true, beq_iff_eq] at hb
      exact h1 ⟨hb.1, hb.2⟩
    · exact ih d h.2

theorem squeezePunct_punctPairFree (l : List Char) : PunctPairFree (squeezePunct l) := by
  cases l with
  | nil => simp [squeezePunct, PunctPairFree]
  | cons c t => exact punctPairFree_of_noRun (squeezeAux c t) c (noRun_squeezeAux t c)

theorem squeezePunct_eq_self {l : List Char} (h : PunctPairFree l) :
    squeezePunct l = l := by
  cases l with
  | nil => rfl
  | cons c t =>
    rw [squeezePunct, squeezeAux_eq_self t c (noRun_of_punctPairFree t c h)]

theorem stripL_infix (l : List Char) : stripL l <:+: l := by
  have h1 : l.dropWhile isSpaceChar <:+ l := List.dropWhile_suffix _
  have h2 : (l.dropWhile isSpaceChar).reverse.dropWhile isSpaceChar <:+
      (l.dropWhile isSpaceChar).reverse := List.dropWhile_suffix _
  have h3 : stripL l <+: l.dropWhile isSpaceChar := by
    rw [← List.reverse_suffix, stripL, List.reverse_reverse]
    exact h2
  exact h3.isInfix.trans h1.isInfix

theorem head?_dropWhile_false :
    ∀ (l : List Char) (c : Char), (l.dropWhile isSpaceChar).head? = some c →
      isSpaceChar c = false := by
  intro l
  induction l with
  | nil => intro c h; simp [List.dropWhile] at h
  | cons a t ih =>
    intro c h
    by_cases ha : isSpaceChar a = true
    · rw [List.dropWhile_cons, if_pos ha] at h
      exact ih c h
    · rw [List.dropWhile_cons, if_neg ha] at h
      simp only [List.head?_cons, Option.some.injEq] at h
      exact h ▸ Bool.eq_false_iff.mpr ha

theorem getLast?_dropWhile :
    ∀ (l : List Char), l.dropWhile isSpaceChar ≠ [] →
      (l.dropWhile isSpaceChar).getLast? = l.getLast? := by
  intro l
  induction l with
  | nil => intro h; exact absurd rfl h
  | cons a t ih =>
    intro h
    by_cases ha : isSpaceChar a = true
    · rw [List.dropWhile_cons, if_pos ha] at h ⊢
      have ht : t ≠ [] := by
        intro h0
        rw [h0] at h
        exact h rfl
      obtain ⟨b, t2, rfl⟩ : ∃ b t2, t = b :: t2 := by
        cases t with
        | nil => exact absurd rfl ht
        | cons b t2 => exact ⟨b, t2, rfl⟩
      rw [List.getLast?_cons_cons]
      exact ih h
    · rw [List.dropWhile_cons, if_neg ha]

theorem stripL_head_false {l : List Char} :
    ∀ c, (stripL l).head? = some c → isSpaceChar c = false := by
  intro c hc
  rw [stripL, List.head?_reverse] at hc
  have hne : (l.dropWhile isSpaceChar).reverse.dropWhile isSpaceChar ≠ [] := by
    intro h0
    rw [h0] at hc
    simp at hc
  rw [getLast?_dropWhile _ hne, List.getLast?_reverse] at hc
  exact head?_dropWhile_false l c hc

theorem stripL_getLast_false {l : List Char} :
    ∀ c, (stripL l).getLast? = some c → isSpaceChar c = false := by
  intro c hc
  rw [stripL, List.getLast?_reverse] at hc
  exact head?_dropWhile_false _ c hc

theorem stripL_eq_self' {l : List Char}
    (hh : ∀ c, l.head? = some c → isSpaceChar c = false)
    (hl : ∀ c, l.getLast? = some c → isSpaceChar c = false) : stripL l = l := by
  cases l with
  | nil => rfl
  | cons a t =>
    have ha : isSpaceChar a = false := hh a rfl
    rw [stripL, List.dropWhile_cons, if_neg (by rw [ha]; decide)]
    have hlast : (a :: t).reverse.dropWhile isSpaceChar = (a :: t).reverse := by
      cases hrev : (a :: t).reverse with
      | nil => rfl
      | cons b t2 =>
        have hb : isSpaceChar b = false := by
          apply hl
          rw [← List.head?_reverse, hrev]
          rfl
        rw [List.dropWhile_cons, if_neg (by rw [hb]; decide)]
    rw [hlast, List.reverse_reverse]

theorem stripL_idem (l : List Char) : stripL (stripL l) = stripL l :=
  stripL_eq_self' stripL_head_false stripL_getLast_false

theorem collapseWSAux_eq_self' :
    ∀ (l : List Char), SpacePairFree l → (∀ c ∈ l, isSpaceChar c = true → c = ' ') →
      collapseWSAux false l = l ∧
      ((∀ c, l.head? = some c → isSpaceChar c = false) → collapseWSAux true l = l) := by
  intro l
  induction l with
  | nil => exact fun _ _ => ⟨rfl, fun _ => rfl⟩
  | cons d rest ih =>
    intro hchain hblank
    obtain ⟨hrel, hrest⟩ := List.chain'_cons'.mp hchain
    have hblank2 : ∀ c ∈ rest, isSpaceChar c = true → c = ' ' :=
      fun c hc => hblank c (List.mem_cons_of_mem d hc)
    obtain ⟨ihF, ihT⟩ := ih hrest hblank2
    constructor
    · by_cases hd : isSpaceChar d = true
      · rw [collapseWSAux, if_pos hd]
        have hd1 : d = ' ' := hblank d (List.mem_cons_self d rest) hd
        have hhead : ∀ c, rest.head? = some c → isSpaceChar c = false := by
          intro c hc
          rcases hrel c hc with h1 | h1
          · rw [hd] at h1
            exact absurd h1 (by decide)
          · exact h1
        rw [ihT hhead, hd1]
        rfl
      · rw [collapseWSAux, if_neg hd, ihF]
    · intro hhead
      have hd : isSpaceChar d = false := hhead d rfl
      rw [collapseWSAux, if_neg (by rw [hd]; decide), ihF]

/-- C7 counterexample: `clean_text` is not idempotent.  Deleting the
disallowed `@` of `"a @ b"` leaves two adjacent spaces, which only a second
cleaning collapses: `clean_text "a @ b" = "a  b"` while
`clean_text (clean_text "a @ b") = "a b"`. -/
theorem clean_text_not_idempotent_cex :
    cleanText "a @ b" = "a  b" ∧ cleanText (cleanText "a @ b") = "a b" ∧
    ("a b" : String) ≠ "a  b" :=
  ⟨by decide, by decide, by decide⟩

/-- C7 (amended): `clean_text` is idempotent on every input consisting
solely of allow-listed characters (in particular on any text the character
filter does not alter); in general a second cleaning can differ from the
first, because deleting a disallowed character that sits between two spaces
leaves a doubled space that only the next whitespace-collapse removes. -/
theorem clean_text_idempotent_on_allowed (s : String)
    (hall : ∀ c ∈ s.data, allowedChar c = true) :
    cleanText (cleanText s) = cleanText s := by
  show String.mk (cleanTextL (cleanTextL s.data)) = String.mk (cleanTextL s.data)
  refine congrArg String.mk ?_
  set l := s.data with hl
  by_cases h0 : l = []
  · rw [h0]; rfl
  -- pass 1, with the filter shown to be a no-op on its input
  have ht2allowed : ∀ c ∈ collapseWS (stripL l), allowedChar c = true := by
    intro c hc
    rcases mem_collapseWSAux hc with h1 | h1
    · rw [h1]; decide
    · exact hall c (mem_stripL h1.1)
  have ht2blank : ∀ c ∈ collapseWS (stripL l), isSpaceChar c = true → c = ' ' := by
    intro c hc hsp
    rcases mem_collapseWSAux hc with h1 | h1
    · exact h1
    · rw [h1.2] at hsp
      exact absurd hsp (by decide)
  have ht2chain : SpacePairFree (collapseWS (stripL l)) := (collapseWSAux_chain (stripL l)).1
  have hfilter : (collapseWS (stripL l)).filter allowedChar = collapseWS (stripL l) :=
    List.filter_eq_self.mpr ht2allowed
  have hy : cleanTextL l = stripL (squeezePunct (collapseWS (stripL l))) := by
    rw [cleanTextL, if_neg h0, hfilter]
  -- properties of the pass-1 output y
  set t4 := squeezePunct (collapseWS (stripL l)) with ht4
  have ht4chain : SpacePairFree t4 := squeezePunct_spacePairFree ht2chain
  have ht4punct : PunctPairFree t4 := squeezePunct_punctPairFree _
  have ht4allowed : ∀ c ∈ t4, allowedChar c = true :=
    fun c hc => ht2allowed c (mem_squeezePunct hc)
  have ht4blank : ∀ c ∈ t4, isSpaceChar c = true → c = ' ' :=
    fun c hc => ht2blank c (mem_squeezePunct hc)
  have hyinfix : stripL t4 <:+: t4 := stripL_infix t4
  have hychain : SpacePairFree (stripL t4) := List.Chain'.infix ht4chain hyinfix
  have hypunct : PunctPairFree (stripL t4) := List.Chain'.infix ht4punct hyinfix
  have hyallowed : ∀ c ∈ stripL t4, allowedChar c = true :=
    fun c hc => ht4allowed c (mem_stripL hc)
  have hyblank : ∀ c ∈ stripL t4, isSpaceChar c = true → c = ' ' :=
    fun c hc => ht4blank c (mem_stripL hc)
  -- pass 2 is the identity on y
  have hcollapse : collapseWS (stripL t4) = stripL t4 := by
    rw [collapseWS]
    exact (collapseWSAux_eq_self' (stripL t4) hychain hyblank).1
  rw [hy]
  by_cases hynil : stripL t4 = []
  · rw [hynil]; rfl
  rw [cleanTextL, if_neg hynil, stripL_idem, hcollapse,
    List.filter_eq_self.mpr hyallowed, squeezePunct_eq_self hypunct, stripL_idem]

theorem clean_text_idempotent_on_allowed_witness :
    cleanText (cleanText "hello  world,,!") = cleanText "hello  world,,!" :=
  clean_text_idempotent_on_allowed "hello  world,,!" (by decide)

/-! ## Text builders: `build_knowledge_text` (lines 302-357) and
`build_feedback_text` (lines 359-388) -/

/-- A knowledge record.  `Option` distinguishes an absent key from a key
present with an empty value (`item.get(key, default)` in the source);
passthrough fields the builder never reads are omitted. -/
structure KnowledgeItem where
  aspect : Option String
  insight : Option String
  sentiment : Option String
  description : Option String
  examples : List String
  keywords : List String

/-- The `text_parts` list assembled by `build_knowledge_text`: one labelled
part per field that survives cleaning, examples capped at three and filtered
by Python truthiness before cleaning, keywords filtered likewise. -/
def knowledgeParts (item : KnowledgeItem) : List String :=
  (if cleanText (item.aspect.getD "") = "" then []
    else ["维度：" ++ cleanText (item.aspect.getD "")]) ++
  (if cleanText (item.insight.getD "") = "" then []
    else ["观点：" ++ cleanText (item.insight.getD "")]) ++
  (if cleanText (item.sentiment.getD "") = "" then []
    else ["情感：" ++ cleanText (item.sentiment.getD "")]) ++
  (if cleanText (item.description.getD "") = "" then []
    else ["描述：" ++ cleanText (item.description.getD "")]) ++
  (if item.examples = [] then []
    else
      let cleanedExamples := ((item.examples.take 3).filter (fun ex => ex != "")).map cleanText
      if cleanedExamples = [] then []
      else ["例子：" ++ String.intercalate " | " cleanedExamples]) ++
  (if item.keywords = [] then []
    else
      let cleanedKeywords := (item.keywords.filter (fun kw => kw != "")).map cleanText
      if cleanedKeywords = [] then []
      else ["关键词：" ++ String.intercalate " " cleanedKeywords])

/-- `DataHelper.build_knowledge_text`: join the parts with `" | "`; if the
joined text strips to nothing, fall back to
`str(item.get("insight", item.get("aspect", "未知内容")))`.  (The
`try/except` wrapper never fires on the typed records modelled here.) -/
def buildKnowledgeText (item : KnowledgeItem) : String :=
  let resultText := String.intercalate " | " (knowledgeParts item)
  if pyStrip resultText = "" then item.insight.getD (item.aspect.getD "未知内容")
  else resultText

/-- `DataHelper.build_feedback_text`: clean the raw text; if nothing is left
return the fixed fallback `"空内容"`; otherwise prefer a
`摘要：… | 原文：…` rendering when a truthy summary survives cleaning, else
`用户反馈：…`. -/
def buildFeedbackText (rawText : String) (summary : Option String) : String :=
  let cleanedRaw := cleanText rawText
  if cleanedRaw = "" then "空内容"
  else
    match summary with
    | some s =>
      if s = "" then "用户反馈：" ++ cleanedRaw
      else
        let cleanedSummary := cleanText s
        if cleanedSummary = "" then "用户反馈：" ++ cleanedRaw
        else "摘要：" ++ cleanedSummary ++ " | 原文：" ++ cleanedRaw
    | none => "用户反馈：" ++ cleanedRaw

/-! ## Claims C5 and C10 about the text builders -/

/-- C5 counterexample: a record supplying `aspect` and `insight` as
present-but-empty strings makes `build_knowledge_text` return the empty
string, and a record lacking both fields but carrying a sentiment yields
`情感：good` — a string without the `未知` (unknown) marker. -/
theorem build_knowledge_text_cex :
    buildKnowledgeText ⟨some "", some "", none, none, [], []⟩ = "" ∧
    buildKnowledgeText ⟨none, none, some "good", none, [], []⟩ = "情感：good" ∧
    ¬ ('未' ∈ "情感：good".data) :=
  ⟨by decide, by decide, by decide⟩

/-- First argument's characters lead the result of `String.intercalate.go`. -/
theorem intercalate_go_data (s : String) :
    ∀ (as : List String) (acc : String),
      ∃ t, (String.intercalate.go acc s as).data = acc.data ++ t := by
  intro as
  induction as with
  | nil => intro acc; exact ⟨[], (List.append_nil acc.data).symm⟩
  | cons a as2 ih =>
    intro acc
    obtain ⟨t, ht⟩ := ih (acc ++ s ++ a)
    refine ⟨s.data ++ (a.data ++ t), ?_⟩
    show (String.intercalate.go (acc ++ s ++ a) s as2).data = acc.data ++ (s.data ++ (a.data ++ t))
    rw [ht]
    show acc.data ++ s.data ++ a.data ++ t = acc.data ++ (s.data ++ (a.data ++ t))
    rw [List.append_assoc, List.append_assoc]

/-- The first string of a joined non-empty list is a prefix of the join. -/
theorem intercalate_cons_data (s q : String) (rest : List String) :
    ∃ t, (String.intercalate s (q :: rest)).data = q.data ++ t :=
  intercalate_go_data s rest q

theorem stripL_eq_nil_iff {l : List Char} :
    stripL l = [] ↔ ∀ c ∈ l, isSpaceChar c = true := by
  constructor
  · intro h
    rw [stripL, List.reverse_eq_nil_iff, List.dropWhile_eq_nil_iff] at h
    have h2 : l.dropWhile isSpaceChar = [] := by
      cases hd : l.dropWhile isSpaceChar with
      | nil => rfl
      | cons a t =>
        have ha : isSpaceChar a = false := head?_dropWhile_false l a (by rw [hd]; rfl)
        have hb : isSpaceChar a = true := h a (by rw [hd]; simp)
        rw [ha] at hb
        exact absurd hb (by decide)
    rw [List.dropWhile_eq_nil_iff] at h2
    exact h2
  · intro h
    rw [stripL, List.reverse_eq_nil_iff, List.dropWhile_eq_nil_iff]
    intro c hc
    exact h c ((List.dropWhile_sublist _).subset (List.mem_reverse.mp hc))

theorem pyStrip_eq_empty_iff {s : String} :
    pyStrip s = "" ↔ ∀ c ∈ s.data, isSpaceChar c = true := by
  rw [pyStrip, String.ext_iff]
  exact stripL_eq_nil_iff

/-- Every assembled part begins with its non-whitespace CJK label
character (`维`, `观`, `情`, `描`, `例` or `关`). -/
theorem knowledgeParts_head (item : KnowledgeItem) :
    ∀ q ∈ knowledgeParts item, ∃ c t, q.data = c :: t ∧ isSpaceChar c = false := by
  intro q hq
  simp only [knowledgeParts, List.mem_append] at hq
  rcases hq with ((((h | h) | h) | h) | h) | h
  · split at h
    · exact absurd h (List.not_mem_nil q)
    · rw [List.mem_singleton] at h
      subst h
      exact ⟨'维', _, rfl, by decide⟩
  · split at h
    · exact absurd h (List.not_mem_nil q)
    · rw [List.mem_singleton] at h
      subst h
      exact ⟨'观', _, rfl, by decide⟩
  · split at h
    · exact absurd h (List.not_mem_nil q)
    · rw [List.mem_singleton] at h
      subst h
      exact ⟨'情', _, rfl, by decide⟩
  · split at h
    · exact absurd h (List.not_mem_nil q)
    · rw [List.mem_singleton] at h
      subst h
      exact ⟨'描', _, rfl, by decide⟩
  · split at h
    · exact absurd h (List.not_mem_nil q)
    · split at h
      · exact absurd h (List.not_mem_nil q)
      · rw [List.mem_singleton] at h
        subst h
        exact ⟨'例', _, rfl, by decide⟩
  · split at h
    · exact absurd h (List.not_mem_nil q)
    · split at h
      · exact absurd h (List.not_mem_nil q)
      · rw [List.mem_singleton] at h
        subst h
        exact ⟨'关', _, rfl, by decide⟩

/-- C5 (amended): `build_knowledge_text` never raises; it returns the empty
string exactly when no field contributes a part after cleaning AND the
final fallback `str(item.get("insight", item.get("aspect", "未知内容")))`
picks a present-but-empty string — i.e. `insight` is present but empty, or
`insight` is absent and `aspect` is present but empty.  For every other
record the result is non-empty, and when `aspect` and `insight` are absent
and no field contributes a part, the `未知内容` ("unknown content")
fallback is produced. -/
theorem build_knowledge_text_amended (item : KnowledgeItem) :
    (buildKnowledgeText item = "" ↔
      (knowledgeParts item = [] ∧
        (item.insight = some "" ∨ (item.insight = none ∧ item.aspect = some "")))) ∧
    (knowledgeParts item = [] → item.insight = none → item.aspect = none →
      buildKnowledgeText item = "未知内容") := by
  have hresult : knowledgeParts item ≠ [] →
      pyStrip (String.intercalate " | " (knowledgeParts item)) ≠ "" := by
    intro hne hps
    obtain ⟨q, rest, hqr⟩ : ∃ q rest, knowledgeParts item = q :: rest := by
      cases hk : knowledgeParts item with
      | nil => exact absurd hk hne
      | cons q rest => exact ⟨q, rest, rfl⟩
    obtain ⟨c, t, hct, hc⟩ :=
      knowledgeParts_head item q (by rw [hqr]; exact List.mem_cons_self q rest)
    obtain ⟨t2, ht2⟩ := intercalate_cons_data " | " q rest
    have hmem : c ∈ (String.intercalate " | " (knowledgeParts item)).data := by
      rw [hqr, ht2, hct]
      exact List.mem_append_left _ (List.mem_cons_self c t)
    have hsp := pyStrip_eq_empty_iff.mp hps c hmem
    rw [hc] at hsp
    exact absurd hsp (by decide)
  constructor
  · constructor
    · intro h0
      simp only [buildKnowledgeText] at h0
      by_cases hps : pyStrip (String.intercalate " | " (knowledgeParts item)) = ""
      · have hparts : knowledgeParts item = [] := by
          by_contra hne
          exact hresult hne hps
        rw [if_pos hps] at h0
        refine ⟨hparts, ?_⟩
        cases hins : item.insight with
        | some s =>
          rw [hins, Option.getD_some] at h0
          exact Or.inl (by rw [h0])
        | none =>
          rw [hins, Option.getD_none] at h0
          cases hasp : item.aspect with
          | some a =>
            rw [hasp, Option.getD_some] at h0
            exact Or.inr ⟨rfl, by rw [h0]⟩
          | none =>
            rw [hasp, Option.getD_none] at h0
            exact absurd h0 (by decide)
      · rw [if_neg hps] at h0
        rw [h0] at hps
        exact absurd (by decide : pyStrip "" = "") hps
    · rintro ⟨hparts, hfb⟩
      simp only [buildKnowledgeText]
      rw [hparts]
      rw [if_pos (by decide : pyStrip (String.intercalate " | " ([] : List String)) = "")]
      rcases hfb with h1 | ⟨h1, h2⟩
      · rw [h1, Option.getD_some]
      · rw [h1, Option.getD_none, h2, Option.getD_some]
  · intro hparts hi ha
    simp only [buildKnowledgeText]
    rw [hparts, hi, ha]
    decide

theorem build_knowledge_text_amended_witness :
    buildKnowledgeText ⟨some "", some "", none, none, [], []⟩ = "" ∧
    buildKnowledgeText ⟨none, none, some "@@@", none, [], []⟩ = "未知内容" :=
  ⟨(build_knowledge_text_amended ⟨some "", some "", none, none, [], []⟩).1.mpr
      ⟨by decide, Or.inl rfl⟩,
   (build_knowledge_text_amended ⟨none, none, some "@@@", none, [], []⟩).2
      (by decide) rfl rfl⟩

/-- C10: whenever the raw text is empty or cleans to the empty string,
`build_feedback_text` returns the fixed non-empty fallback `空内容`, for
every summary argument — the summary is consulted only when the cleaned raw
text is non-empty. -/
theorem build_feedback_text_empty_fallback (rawText : String) (summary : Option String)
    (h : cleanText rawText = "") :
    buildFeedbackText rawText summary = "空内容" ∧ "空内容" ≠ "" := by
  refine ⟨?_, by decide⟩
  unfold buildFeedbackText
  rw [h]
  rfl

theorem build_feedback_text_empty_fallback_witness :
    buildFeedbackText "   " (some "hello") = "空内容" :=
  (build_feedback_text_empty_fallback "   " (some "hello") (by decide)).1

/-! ## Embedding cache (`EmbeddingCache` dataclass, lines 46-63; the cache
dictionary used by `embed_text`, lines 405-414 and 432-435) -/

/-- The `EmbeddingCache` dataclass: one cache entry.  `timestamp` is the
`time.time()` value recorded at creation (passed in as `now` here, since the
wall clock is an external collaborator). -/
structure EmbeddingCache where
  text_hash : String
  embedding : Vec
  model : String
  timestamp : ℚ
deriving DecidableEq

/-- `EmbeddingCache.from_text`: the entry for a text is keyed by a stable
content hash of it.  The source hashes with `hashlib.md5`; the hash function
is a parameter here (any deterministic function of the text). -/
def EmbeddingCache.fromText (hash : String → String) (text : String) (embedding : Vec)
    (model : String) (now : ℚ) : EmbeddingCache :=
  ⟨hash text, embedding, model, now⟩

/-- The in-memory `self._embedding_cache : Dict[str, EmbeddingCache]`,
keyed by `text_hash`, as an association list in insertion order. -/
abbrev CacheMap := List (String × EmbeddingCache)

/-- Dictionary lookup `cache[key]` / `key in cache`. -/
def lookupKey : CacheMap → String → Option EmbeddingCache
  | [], _ => none
  | (k, v) :: rest, key => if k = key then some v else lookupKey rest key

/-- Dictionary assignment `cache[key] = entry`: replace the entry at an
existing key, else append. -/
def updateKey : CacheMap → String → EmbeddingCache → CacheMap
  | [], key, e => [(key, e)]
  | (k, v) :: rest, key, e =>
    if k = key then (key, e) :: rest else (k, v) :: updateKey rest key e

/-- The cache-read path of `embed_text` (lines 405-412): hit only when the
hashed text is present AND the entry's model equals the current model. -/
def cacheGet (cache : CacheMap) (hash : String → String) (text model : String) : Option Vec :=
  match lookupKey cache (hash text) with
  | some cacheObj => if cacheObj.model = model then some cacheObj.embedding else none
  | none => none

/-- The cache-write path of `embed_text` (lines 432-435):
`self._embedding_cache[text_hash] = EmbeddingCache.from_text(...)`. -/
def cachePut (cache : CacheMap) (hash : String → String) (text model : String)
    (embedding : Vec) (now : ℚ) : CacheMap :=
  updateKey cache (hash text) (EmbeddingCache.fromText hash text embedding model now)

theorem lookupKey_updateKey_self (cache : CacheMap) (key : String) (e : EmbeddingCache) :
    lookupKey (updateKey cache key e) key = some e := by
  induction cache with
  | nil => simp [updateKey, lookupKey]
  | cons kv rest ih =>
    obtain ⟨k, v⟩ := kv
    by_cases hk : k = key
    · rw [updateKey, if_pos hk, lookupKey, if_pos rfl]
    · rw [updateKey, if_neg hk, lookupKey, if_neg hk]
      exact ih

/-- C3: after `put(text, model, v)`, `get(text, model)` returns `v`, and a
lookup for the same text under any other model identifier misses — the
cached vector stored for one model is never returned for another. -/
theorem embedding_cache_model_isolation (cache : CacheMap) (hash : String → String)
    (text model modelB : String) (v : Vec) (now : ℚ) (hne : modelB ≠ model) :
    cacheGet (cachePut cache hash text model v now) hash text model = some v ∧
    cacheGet (cachePut cache hash text model v now) hash text modelB = none := by
  constructor
  · simp [cacheGet, cachePut, lookupKey_updateKey_self, EmbeddingCache.fromText]
  · have hne2 : ¬model = modelB := fun h => hne (Eq.symm h)
    simp [cacheGet, cachePut, lookupKey_updateKey_self, EmbeddingCache.fromText, hne2]

theorem embedding_cache_model_isolation_witness :
    cacheGet (cachePut [] (fun t => t) "hello" "mxbai" [1, 0] 0) (fun t => t) "hello" "mxbai"
        = some [1, 0] ∧
    cacheGet (cachePut [] (fun t => t) "hello" "mxbai" [1, 0] 0) (fun t => t) "hello" "nomic"
        = none :=
  embedding_cache_model_isolation [] (fun t => t) "hello" "mxbai" "nomic" [1, 0] 0 (by decide)

/-! ## `DataHelper.embed_text` (lines 390-460): blank-text short circuit,
cache-aside, and the retry loop -/

/-- The full observable behaviour of one `embed_text` call: the returned
value (`.error` models the raised `EmbeddingError`), the number of calls
made to the external embedding service, the backoff sleeps performed (in
seconds, in order), and the cache afterwards. -/
structure EmbedTrace where
  result : Except String (Option Vec)
  calls : ℕ
  sleeps : List ℕ
  cache : CacheMap

/-- The retry loop `for attempt in range(retry_count)` of `embed_text`.
`service attempt` is the outcome of the `attempt`-th call to
`self.ollama_client.embed` (the external service).  `remaining` counts the
attempts still permitted (`retry_count - attempt`), so the source's
`attempt < retry_count - 1` test is `remaining ≠ 1`, i.e. the nested
`remaining = 0` test after peeling one attempt; recursion on `remaining` is
structural.  On failure of a non-final attempt the loop sleeps
`2 ** attempt` seconds; on failure of the final attempt it raises
`EmbeddingError(f"向量化失败: {e}")`.  With `remaining = 0` the loop body
never runs and the function falls through to `return None`. -/
def embedAttemptLoop (service : ℕ → Except String Vec) :
    ℕ → ℕ → Except String (Option Vec) × ℕ × List ℕ
  | _, 0 => (.ok none, 0, [])
  | attempt, remaining + 1 =>
    match service attempt with
    | .ok embedding => (.ok (some embedding), 1, [])
    | .error e =>
      if remaining = 0 then (.error ("向量化失败: " ++ e), 1, [])
      else
        let r := embedAttemptLoop service (attempt + 1) remaining
        (r.1, r.2.1 + 1, 2 ^ attempt :: r.2.2)

/-- `DataHelper.embed_text`: blank text short-circuits to `None`; a cache
hit (same hash, same model, caching enabled) returns the cached vector with
no service call; otherwise the retry loop runs and a successful embedding is
written back to the cache. -/
def embedText (service : ℕ → Except String Vec) (hash : String → String)
    (enableCache : Bool) (cache : CacheMap) (model : String) (now : ℚ)
    (text : String) (retryCount : ℕ) : EmbedTrace :=
  if text = "" ∨ pyStrip text = "" then ⟨.ok none, 0, [], cache⟩
  else
    match (if enableCache then cacheGet cache hash text model else none) with
    | some cached => ⟨.ok (some cached), 0, [], cache⟩
    | none =>
      let r := embedAttemptLoop service 0 retryCount
      let newCache :=
        match r.1 with
        | .ok (some embedding) =>
          if enableCache then cachePut cache hash text model embedding now else cache
        | _ => cache
      ⟨r.1, r.2.1, r.2.2, newCache⟩

/-- C8: blank or whitespace-only text makes `embed_text` return the
distinguished empty result `None` without raising, without any service
call, and without any retry sleep; the cache is untouched. -/
theorem embed_text_blank_short_circuit (service : ℕ → Except String Vec)
    (hash : String → String) (enableCache : Bool) (cache : CacheMap)
    (model : String) (now : ℚ) (text : String) (retryCount : ℕ)
    (h : text = "" ∨ pyStrip text = "") :
    embedText service hash enableCache cache model now text retryCount
      = ⟨.ok none, 0, [], cache⟩ := by
  unfold embedText
  rw [if_pos h]

theorem embed_text_blank_short_circuit_witness :
    embedText (fun _ => .error "service is unreachable") (fun t => t) true [] "mxbai" 0
        "   " 3
      = ⟨.ok none, 0, [], []⟩ :=
  embed_text_blank_short_circuit (fun _ => .error "service is unreachable") (fun t => t)
    true [] "mxbai" 0 "   " 3 (Or.inr (by decide))

/-- When every service call fails, the retry loop makes exactly `remaining`
calls, sleeps `2 ^ attempt` seconds after each non-final failure, and ends
with the `EmbeddingError` built from the last underlying error. -/
theorem embedAttemptLoop_allFail (service : ℕ → Except String Vec) (err : ℕ → String)
    (hs : ∀ n, service n = .error (err n)) :
    ∀ (remaining attempt : ℕ), remaining ≠ 0 →
      embedAttemptLoop service attempt remaining =
        (.error ("向量化失败: " ++ err (attempt + remaining - 1)), remaining,
          (List.range (remaining - 1)).map (fun i => 2 ^ (attempt + i))) := by
  intro remaining
  induction remaining with
  | zero => intro attempt h; exact absurd rfl h
  | succ m ih =>
    intro attempt _
    rw [embedAttemptLoop, hs attempt]
    dsimp only
    by_cases hm : m = 0
    · subst hm
      simp
    · obtain ⟨n, rfl⟩ : ∃ n, m = n + 1 := ⟨m - 1, by omega⟩
      rw [if_neg hm, ih (attempt + 1) hm]
      have h1 : attempt + 1 + (n + 1) - 1 = attempt + (n + 1 + 1) - 1 := by omega
      rw [h1]
      simp only [Nat.add_sub_cancel]
      rw [List.range_succ_eq_map, List.map_cons, List.map_map, Nat.add_zero]
      have h2 : ((fun i => 2 ^ (attempt + i)) ∘ Nat.succ) = (fun i => 2 ^ (attempt + 1 + i)) := by
        funext i
        simp only [Function.comp_apply]
        congr 1
        omega
      rw [h2]
      simp only [Nat.add_zero]

/-- When the service fails on the first `k` attempts and then succeeds, the
retry loop returns the vector after exactly `k + 1` calls. -/
theorem embedAttemptLoop_failThenOk (service : ℕ → Except String Vec) (err : ℕ → String)
    (v : Vec) :
    ∀ (k attempt remaining : ℕ), k < remaining →
      (∀ i, i < k → service (attempt + i) = .error (err (attempt + i))) →
      service (attempt + k) = .ok v →
      embedAttemptLoop service attempt remaining =
        (.ok (some v), k + 1, (List.range k).map (fun i => 2 ^ (attempt + i))) := by
  intro k
  induction k with
  | zero =>
    intro attempt remaining hlt _ hok
    obtain ⟨m, rfl⟩ : ∃ m, remaining = m + 1 := ⟨remaining - 1, by omega⟩
    rw [Nat.add_zero] at hok
    rw [embedAttemptLoop, hok]
    rfl
  | succ k ih =>
    intro attempt remaining hlt hfail hok
    obtain ⟨m, rfl⟩ : ∃ m, remaining = m + 1 := ⟨remaining - 1, by omega⟩
    have h0 : service attempt = .error (err attempt) := by
      have h3 := hfail 0 (Nat.succ_pos k)
      rwa [Nat.add_zero] at h3
    rw [embedAttemptLoop, h0]
    dsimp only
    have hm : ¬m = 0 := by omega
    rw [if_neg hm]
    have hfail2 : ∀ i, i < k → service (attempt + 1 + i) = .error (err (attempt + 1 + i)) := by
      intro i hi
      have h4 : attempt + 1 + i = attempt + (i + 1) := by omega
      rw [h4]
      exact hfail (i + 1) (by omega)
    have hok2 : service (attempt + 1 + k) = .ok v := by
      have h5 : attempt + 1 + k = attempt + (k + 1) := by omega
      rw [h5]
      exact hok
    rw [ih (attempt + 1) m (by omega) hfail2 hok2]
    rw [List.range_succ_eq_map, List.map_cons, List.map_map, Nat.add_zero]
    have h2 : ((fun i => 2 ^ (attempt + i)) ∘ Nat.succ) = (fun i => 2 ^ (attempt + 1 + i)) := by
      funext i
      simp only [Function.comp_apply]
      congr 1
      omega
    rw [h2]
    simp only [Nat.add_zero]

/-- On non-blank text with no cache hit, `embed_text`'s observable result,
call count and sleeps are those of the retry loop started at attempt 0. -/
theorem embedText_miss (service : ℕ → Except String Vec) (hash : String → String)
    (enableCache : Bool) (cache : CacheMap) (model : String) (now : ℚ)
    (text : String) (retryCount : ℕ)
    (hblank : ¬(text = "" ∨ pyStrip text = ""))
    (hmiss : (if enableCache then cacheGet cache hash text model else none) = none) :
    (embedText service hash enableCache cache model now text retryCount).result
        = (embedAttemptLoop service 0 retryCount).1 ∧
    (embedText service hash enableCache cache model now text retryCount).calls
        = (embedAttemptLoop service 0 retryCount).2.1 ∧
    (embedText service hash enableCache cache model now text retryCount).sleeps
        = (embedAttemptLoop service 0 retryCount).2.2 := by
  unfold embedText
  rw [if_neg hblank, hmiss]
  exact ⟨rfl, rfl, rfl⟩

/-- C2 (amended): on non-blank uncached text, if the service always fails
then `embed_text` makes exactly `retry_count` service calls, sleeping
`2 ^ attempt` seconds between attempts (1s, 2s, 4s, … doubling with no
upper cap), and raises `EmbeddingError` whose message carries the last
underlying error (the text preview appears only in the log, not in the
exception); if the service fails on the first `k` attempts
(`k < retry_count`) and then succeeds, `embed_text` returns the vector
after exactly `k + 1` service invocations. -/
theorem embed_text_retry_policy (service : ℕ → Except String Vec) (err : ℕ → String)
    (hash : String → String) (enableCache : Bool) (cache : CacheMap)
    (model : String) (now : ℚ) (text : String) (retryCount : ℕ)
    (hblank : ¬(text = "" ∨ pyStrip text = ""))
    (hmiss : (if enableCache then cacheGet cache hash text model else none) = none) :
    ((∀ n, service n = .error (err n)) → retryCount ≠ 0 →
      (embedText service hash enableCache cache model now text retryCount).result
          = .error ("向量化失败: " ++ err (retryCount - 1)) ∧
      (embedText service hash enableCache cache model now text retryCount).calls = retryCount ∧
      (embedText service hash enableCache cache model now text retryCount).sleeps
          = (List.range (retryCount - 1)).map (fun i => 2 ^ i)) ∧
    (∀ k v, (∀ i, i < k → service i = .error (err i)) → service k = .ok v →
      k < retryCount →
      (embedText service hash enableCache cache model now text retryCount).result
          = .ok (some v) ∧
      (embedText service hash enableCache cache model now text retryCount).calls = k + 1 ∧
      (embedText service hash enableCache cache model now text retryCount).sleeps
          = (List.range k).map (fun i => 2 ^ i)) := by
  obtain ⟨hres, hcalls, hsleeps⟩ :=
    embedText_miss service hash enableCache cache model now text retryCount hblank hmiss
  constructor
  · intro hs hr
    rw [hres, hcalls, hsleeps, embedAttemptLoop_allFail service err hs retryCount 0 hr]
    simp
  · intro k v hfail hok hk
    have hfail2 : ∀ i, i < k → service (0 + i) = .error (err (0 + i)) := by
      intro i hi
      rw [Nat.zero_add]
      exact hfail i hi
    have hok2 : service (0 + k) = .ok v := by
      rw [Nat.zero_add]
      exact hok
    rw [hres, hcalls, hsleeps,
      embedAttemptLoop_failThenOk service err v k 0 retryCount hk hfail2 hok2]
    simp

/-- C2 counterexample to the claim as stated: with an always-failing service
whose error is `"boom"`, embedding the text `"hello"` with the default
`retry_count = 3` raises an `EmbeddingError` whose message is exactly
`向量化失败: boom` — it contains no preview of the text — and with
`retry_count = 13` the backoff sleeps are exactly
`[1, 2, 4, …, 2048]` seconds: they double without any configurable ceiling
(the configuration defines no backoff cap). -/
theorem embed_text_retry_cex :
    (embedText (fun _ => .error "boom") (fun t => t) true [] "mxbai" 0 "hello" 3).result
        = .error "向量化失败: boom" ∧
    (embedText (fun _ => .error "boom") (fun t => t) true [] "mxbai" 0 "hello" 13).sleeps
        = [1, 2, 4, 8, 16, 32, 64, 128, 256, 512, 1024, 2048] :=
  ⟨rfl, rfl⟩

theorem embed_text_retry_policy_witness :
    (embedText (fun _ => Except.error "boom") (fun t => t) true [] "mxbai" 0 "hi" 3).calls
        = 3 :=
  ((embed_text_retry_policy (fun _ => Except.error "boom") (fun _ => "boom") (fun t => t)
      true [] "mxbai" 0 "hi" 3 (by decide) rfl).1 (fun _ => rfl) (by decide)).2.1

/-! ## `DataHelper.embed_batch` (lines 462-524): claim C1 -/

/-- What a batch worker records for one text: `future.result()` of an
`embed_text` call, with a raised exception caught and recorded as `None`
(lines 494-501).  The worker function is `self.embed_text`; its outcome
depends only on the submitted text. -/
def workerOutcome (worker : String → Except String (Option Vec)) (text : String) : Option Vec :=
  match worker text with
  | .ok v => v
  | .error _ => none

/-- `DataHelper.embed_batch`: a result slot per input text is pre-sized to
`None` (`embeddings = [None] * len(texts)`), every text is submitted with
its index (`future_to_index`), and as futures complete — in an arbitrary
order `completionOrder` — each outcome is written to its own original index
(`embeddings[index] = embedding`).  The trailing `_save_cache` call and the
progress bar do not affect the returned list. -/
def embedBatch (worker : String → Except String (Option Vec)) (completionOrder : List ℕ)
    (texts : List String) : List (Option Vec) :=
  completionOrder.foldl
    (fun embeddings i => embeddings.set i (workerOutcome worker (texts.getD i "")))
    (List.replicate texts.length none)

theorem foldl_set_length (f : ℕ → Option Vec) :
    ∀ (order : List ℕ) (acc : List (Option Vec)),
      (order.foldl (fun a j => a.set j (f j)) acc).length = acc.length := by
  intro order
  induction order with
  | nil => intro acc; rfl
  | cons j rest ih =>
    intro acc
    rw [List.foldl_cons, ih, List.length_set]

theorem foldl_set_getElem (f : ℕ → Option Vec) :
    ∀ (order : List ℕ) (acc : List (Option Vec)) (i : ℕ), i < acc.length →
      (∀ j ∈ order, j < acc.length) →
      (order.foldl (fun a j => a.set j (f j)) acc)[i]?
        = if i ∈ order then some (f i) else acc[i]? := by
  intro order
  induction order with
  | nil => intro acc i hi _; simp
  | cons j rest ih =>
    intro acc i hi hb
    rw [List.foldl_cons]
    rw [ih (acc.set j (f j)) i (by rw [List.length_set]; exact hi)
      (fun x hx => by rw [List.length_set]; exact hb x (List.mem_cons_of_mem j hx))]
    by_cases hm : i ∈ rest
    · rw [if_pos hm, if_pos (List.mem_cons_of_mem j hm)]
    · rw [if_neg hm, List.getElem?_set]
      by_cases hj : j = i
      · subst hj
        rw [if_pos rfl, if_pos (List.mem_cons_self j rest),
          if_pos (hb j (List.mem_cons_self j rest))]
      · rw [if_neg hj, if_neg (fun hc => by
          rcases List.mem_cons.mp hc with h1 | h1
          · exact hj h1.symm
          · exact hm h1)]

/-- C1: for every completion order that schedules each index of the batch
(each worker completes exactly for its own submitted text, in any order),
`embed_batch` returns a list of the same length as the input whose entry at
index `i` is the outcome — the vector on success, `None` on failure — of
embedding `texts[i]`; a failure is recorded as `None` exactly at the
failing item's index, no exception escapes (`workerOutcome` catches the
per-future exception), and every other item keeps its own outcome. -/
theorem embed_batch_order_independent (worker : String → Except String (Option Vec))
    (texts : List String) (order : List ℕ)
    (hbound : ∀ j ∈ order, j < texts.length)
    (hcover : ∀ i, i < texts.length → i ∈ order) :
    (embedBatch worker order texts).length = texts.length ∧
    ∀ i, (hi : i < texts.length) →
      (embedBatch worker order texts)[i]? = some (workerOutcome worker (texts.get ⟨i, hi⟩)) := by
  constructor
  · rw [embedBatch, foldl_set_length, List.length_replicate]
  · intro i hi
    rw [embedBatch, foldl_set_getElem _ order _ i (by rw [List.length_replicate]; exact hi)
      (fun j hj => by rw [List.length_replicate]; exact hbound j hj)]
    rw [if_pos (hcover i hi)]
    congr 2
    rw [List.getD_eq_getElem?_getD, List.getElem?_eq_getElem hi]
    rfl

/-- A fake worker that fails on the text `"b"` and embeds anything else. -/
def wFake : String → Except String (Option Vec) :=
  fun text => if text = "b" then .error "boom" else .ok (some [1])

theorem embed_batch_order_independent_witness :
    (embedBatch wFake [2, 0, 1] ["a", "b", "c"])[1]? = some (workerOutcome wFake "b") := by
  have h := embed_batch_order_independent wFake ["a", "b", "c"] [2, 0, 1]
    (by decide) (by decide)
  exact h.2 1 (by decide)

/-! ## `DataHelper._save_cache` (lines 153-171): claim C4 -/

/-- Observable outcome of one `_save_cache` call: the cache file's content
afterwards and whether the call raised (it never does: the body is wrapped
in `try/except` that only logs). -/
structure SaveOutcome where
  fileContent : String
  raised : Bool

/-- `DataHelper._save_cache`, with the file system modelled explicitly:
the guard `if not self.enable_cache or not self._embedding_cache: return`
leaves the previous file untouched; otherwise
`open(cache_file, 'w')` truncates the file in place and `json.dump` writes
the serialization sequentially.  There is no temporary file and no rename.
`failAt = some k` models an I/O failure after `k` characters have been
written: the file is left holding a prefix of the serialization, and the
exception is caught by the `except` clause (logged, not re-raised). -/
def saveCache (enableCache : Bool) (cache : CacheMap) (prevFile serialized : String)
    (failAt : Option ℕ) : SaveOutcome :=
  if enableCache = false ∨ cache.isEmpty = true then ⟨prevFile, false⟩
  else
    match failAt with
    | none => ⟨serialized, false⟩
    | some k => ⟨⟨serialized.data.take k⟩, false⟩

/-- C4 counterexample: with previous file content `"old"` and serialized
cache `"newdata"`, a failure after three written characters leaves the file
holding `"new"` — neither the previous content nor the full new content, so
the save is not atomic from the caller's perspective. -/
theorem save_cache_not_atomic_cex :
    (saveCache true [("h", ⟨"h", [1], "mxbai", 0⟩)] "old" "newdata" (some 3)).fileContent
        = "new" ∧
    ("new" : String) ≠ "old" ∧ ("new" : String) ≠ "newdata" :=
  ⟨rfl, by decide, by decide⟩

/-- C4 (amended): `_save_cache` writes the serialized cache directly into
the cache file (truncate-and-write in place, no temp path, no rename): an
uninterrupted save persists the full serialization, an interrupted one can
leave a partial file; the exception is caught so the call itself never
raises, and nothing is written when caching is disabled or the cache is
empty. -/
theorem save_cache_write_in_place (enableCache : Bool) (cache : CacheMap)
    (prevFile serialized : String) (failAt : Option ℕ) :
    (saveCache enableCache cache prevFile serialized failAt).raised = false ∧
    (failAt = none → enableCache = true → cache.isEmpty = false →
      (saveCache enableCache cache prevFile serialized failAt).fileContent = serialized) ∧
    ((enableCache = false ∨ cache.isEmpty = true) →
      (saveCache enableCache cache prevFile serialized failAt).fileContent = prevFile) := by
  refine ⟨?_, ?_, ?_⟩
  · unfold saveCache
    split
    · rfl
    · cases failAt with
      | none => rfl
      | some k => rfl
  · intro hnone hen hne
    subst hnone
    unfold saveCache
    rw [if_neg (by simp [hen, hne])]
  · intro hguard
    unfold saveCache
    rw [if_pos hguard]

theorem save_cache_write_in_place_witness :
    (saveCache true [("h", ⟨"h", [1], "mxbai", 0⟩)] "old" "newdata" none).fileContent
        = "newdata" :=
  (save_cache_write_in_place true [("h", ⟨"h", [1], "mxbai", 0⟩)] "old" "newdata" none).2.1
    rfl rfl rfl

/-! ## `LocalVectorDB.search` score normalization (vector_db.py lines
437-532) and `MappedPerspective` (data_helper.py lines 642-650): claim C9 -/

/-- The metadata fields of a stored knowledge hit that the feedback mapper
reads (`result.metadata.get("insight"/"aspect")`); the source metadata dict
carries further keys that no claim concerns. -/
structure HitMetadata where
  insight : String
  aspect : String

/-- The `SearchResult` dataclass of vector_db.py. -/
structure SearchResult where
  id : String
  score : ℚ
  metadata : HitMetadata
  distance : ℚ

/-- A raw Milvus hit as consumed by `LocalVectorDB.search`: an id, the
reported `hit.distance`, and stored metadata. -/
structure RawHit where
  id : String
  distance : ℚ
  metadata : HitMetadata

/-- The score normalization of `LocalVectorDB.search` (lines 495-504):
COSINE distances in [-1, 1] map through `(d + 1) / 2`; L2 distances map
through `1 / (1 + d)`; any other metric is clamped to [0, 1]. -/
def normalizedScore (metric : String) (distance : ℚ) : ℚ :=
  if metric = "COSINE" then (distance + 1) / 2
  else if metric = "L2" then 1 / (1 + distance)
  else max 0 (min 1 distance)

/-- Lines 506-513: build the `SearchResult` for one hit. -/
def processHit (metric : String) (hit : RawHit) : SearchResult :=
  ⟨hit.id, normalizedScore metric hit.distance, hit.metadata, hit.distance⟩

/-- The mapped-perspective projection built per hit in
`_build_feedback_dictionary` (lines 642-650). -/
structure MappedPerspective where
  id : String
  score : ℚ
  insight : String
  aspect : String

/-- One entry of `mapped_perspectives`: `{id, score, insight, aspect}`
copied from a search result. -/
def mkMappedPerspective (result : SearchResult) : MappedPerspective :=
  ⟨result.id, result.score, result.metadata.insight, result.metadata.aspect⟩

/-- C9: under the store's contract — a COSINE distance lies in [-1, 1] and
an L2 distance is non-negative — the score attached to a `SearchResult`
(and copied unchanged into each `MappedPerspective` built from it) is a
normalized value in [0, 1]. -/
theorem search_score_normalized (metric : String) (hit : RawHit)
    (hcos : metric = "COSINE" → -1 ≤ hit.distance ∧ hit.distance ≤ 1)
    (hl2 : metric = "L2" → 0 ≤ hit.distance) :
    0 ≤ (processHit metric hit).score ∧ (processHit metric hit).score ≤ 1 ∧
    (mkMappedPerspective (processHit metric hit)).score = (processHit metric hit).score := by
  refine ⟨?_, ?_, rfl⟩ <;>
  · unfold processHit normalizedScore
    dsimp only
    split
    · rename_i hc
      obtain ⟨h1, h2⟩ := hcos hc
      first
        | exact div_nonneg (by linarith) (by norm_num)
        | rw [div_le_one (by norm_num : (0:ℚ) < 2)]; linarith
    · split
      · rename_i hl
        have hd := hl2 hl
        have hpos : (0:ℚ) < 1 + hit.distance := by linarith
        first
          | positivity
          | rw [div_le_one hpos]; linarith
      · first
          | exact le_max_left 0 _
          | exact max_le (by norm_num) (min_le_left 1 _)

theorem search_score_normalized_witness :
    0 ≤ (processHit "COSINE" ⟨"k1", 1/2, ⟨"too expensive", "price"⟩⟩).score ∧
    (processHit "COSINE" ⟨"k1", 1/2, ⟨"too expensive", "price"⟩⟩).score ≤ 1 :=
  ⟨(search_score_normalized "COSINE" ⟨"k1", 1/2, ⟨"too expensive", "price"⟩⟩
      (fun _ => by norm_num) (fun h => absurd h (by decide))).1,
   (search_score_normalized "COSINE" ⟨"k1", 1/2, ⟨"too expensive", "price"⟩⟩
      (fun _ => by norm_num) (fun h => absurd h (by decide))).2.1⟩

/-! ## `DataHelper._build_feedback_dictionary` (lines 610-692): claim C6 -/

/-- A feedback record.  `Option` distinguishes absent keys; passthrough
fields (copied verbatim into metadata by the source) are omitted as no
claim concerns them. -/
structure FeedbackItem where
  fb_id : Option String
  raw_text : String
  summary : Option String

/-- The metadata dict assembled per feedback record (lines 664-674);
`created_time` (wall clock) and the generic passthrough of extra item
fields are omitted as no claim concerns them. -/
structure FeedbackMeta where
  type : String
  raw_text : String
  summary : Option String
  mapped_perspectives : List MappedPerspective
  model : String
  text_length : ℕ
  embedding_dim : ℕ
  match_count : ℕ

/-- The storable record appended to `feedback_corpus` (lines 681-686). -/
structure FeedbackRecord where
  id : String
  vector : Vec
  text_for_embedding : String
  metadata : FeedbackMeta

/-- The `try/except` mapping block (lines 638-657): call
`local_db.search("knowledge", [embedding], top_k=5)`; on success project
the first query's hits to `{id, score, insight, aspect}`; on an empty
result or any raised exception fall back to the empty list. -/
def searchMapped (search : String → List Vec → ℕ → Except String (List (List SearchResult)))
    (embedding : Vec) : List MappedPerspective :=
  match search "knowledge" [embedding] 5 with
  | .ok searchResults =>
    match searchResults with
    | firstQuery :: _ => firstQuery.map (fun result => mkMappedPerspective result)
    | [] => []
  | .error _ => []

/-- The record assembled for one successfully-embedded feedback item
(lines 635-686). -/
def mkFeedbackRecord (search : String → List Vec → ℕ → Except String (List (List SearchResult)))
    (model : String) (texts : List String) (i : ℕ)
    (item : FeedbackItem) (embedding : Vec) : FeedbackRecord :=
  let mapped := searchMapped search embedding
  { id := item.fb_id.getD ("feedback_" ++ toString i)
    vector := embedding
    text_for_embedding := texts.getD i ""
    metadata := {
      type := "feedback"
      raw_text := item.raw_text
      summary := item.summary
      mapped_perspectives := mapped
      model := model
      text_length := (texts.getD i "").length
      embedding_dim := embedding.length
      match_count := mapped.length } }

/-- The result loop of `_build_feedback_dictionary`
(`for i, (item, embedding) in enumerate(zip(data, embeddings))`): items
whose embedding is `None` are skipped with a warning, every other item
yields one record. -/
def feedbackCorpus (search : String → List Vec → ℕ → Except String (List (List SearchResult)))
    (model : String) (data : List FeedbackItem)
    (texts : List String) (embeddings : List (Option Vec)) : List FeedbackRecord :=
  ((data.zip embeddings).enum).filterMap fun p =>
    match p.2.2 with
    | none => none
    | some embedding => some (mkFeedbackRecord search model texts p.1 p.2.1 embedding)

/-- `DataHelper._build_feedback_dictionary` end to end: build the feedback
texts, batch-embed them, then assemble the corpus. -/
def buildFeedbackDictionary (worker : String → Except String (Option Vec))
    (completionOrder : List ℕ)
    (search : String → List Vec → ℕ → Except String (List (List SearchResult)))
    (model : String) (data : List FeedbackItem) : List FeedbackRecord :=
  let texts := data.map (fun item => buildFeedbackText item.raw_text item.summary)
  feedbackCorpus search model data texts (embedBatch worker completionOrder texts)

theorem feedbackCorpus_length
    (search : String → List Vec → ℕ → Except String (List (List SearchResult)))
    (model : String) (texts : List String) :
    ∀ (l : List (FeedbackItem × Option Vec)) (n : ℕ),
      ((l.enumFrom n).filterMap fun p =>
        match p.2.2 with
        | none => none
        | some embedding => some (mkFeedbackRecord search model texts p.1 p.2.1 embedding)).length
        = (l.filter (fun p => p.2.isSome)).length := by
  intro l
  induction l with
  | nil => intro n; rfl
  | cons q t ih =>
    intro n
    obtain ⟨item, emb⟩ := q
    cases emb with
    | none => simp [List.enumFrom, List.filterMap_cons, List.filter_cons, ih (n + 1)]
    | some embedding => simp [List.enumFrom, List.filterMap_cons, List.filter_cons, ih (n + 1)]

/-- C6: when every nearest-neighbor search raises, the feedback dictionary
build neither raises nor drops records: one record is still assembled per
successfully-embedded item, and each such record carries
`mapped_perspectives = []`. -/
theorem feedback_mapping_failure_resilient
    (search : String → List Vec → ℕ → Except String (List (List SearchResult)))
    (model : String) (data : List FeedbackItem) (texts : List String)
    (embeddings : List (Option Vec))
    (hfail : ∀ c q k, ∃ e, search c q k = Except.error e) :
    (feedbackCorpus search model data texts embeddings).length
        = ((data.zip embeddings).filter (fun p => p.2.isSome)).length ∧
    ∀ r ∈ feedbackCorpus search model data texts embeddings,
      r.metadata.mapped_perspectives = [] := by
  constructor
  · rw [feedbackCorpus, List.enum]
    exact feedbackCorpus_length search model texts (data.zip embeddings) 0
  · intro r hr
    rw [feedbackCorpus] at hr
    obtain ⟨p, hp, hpr⟩ := List.mem_filterMap.mp hr
    cases hemb : p.2.2 with
    | none => rw [hemb] at hpr; simp at hpr
    | some embedding =>
      rw [hemb] at hpr
      have hr2 := Option.some.inj hpr
      subst hr2
      obtain ⟨e, he⟩ := hfail "knowledge" [embedding] 5
      simp [mkFeedbackRecord, searchMapped, he]

/-- A fake search capability that always raises. -/
def failingSearch : String → List Vec → ℕ → Except String (List (List SearchResult)) :=
  fun _ _ _ => .error "search down"

theorem feedback_mapping_failure_resilient_witness :
    (feedbackCorpus failingSearch "mxbai" [⟨some "f1", "太贵了", none⟩] ["用户反馈：太贵了"]
        [some [1, 0]]).length
      = (([(⟨some "f1", "太贵了", none⟩ : FeedbackItem)].zip [some ([1, 0] : Vec)]).filter
          (fun p => p.2.isSome)).length :=
  (feedback_mapping_failure_resilient failingSearch "mxbai" [⟨some "f1", "太贵了", none⟩]
    ["用户反馈：太贵了"] [some [1, 0]] (fun _ _ _ => ⟨"search down", rfl⟩)).1
